import Mathlib

/-!
Shallow embedding of the CCA supply-schedule generator
(`packages/plugins/uniswap-builder/mcp-server/supply-schedule/server.py`).

The source computes with Python ints and IEEE doubles; the embedding
idealises float arithmetic as exact arithmetic: the duration planner
(`calculate_block_durations`) only ever performs field operations and
rounding on rational values, so it is embedded over `ℚ` (computable);
the curve sampler raises rationals to the non-integer power 1.2, so it
is embedded over `ℝ` with `Real.rpow`.  Python's `round` (round half to
even) is embedded as `pyRound`.  The `ZeroDivisionError` raised when
`blocks_for_segments = 0` is embedded by making `generate_schedule`
return `none` in that case.
-/

open scoped NNReal

namespace SupplySchedule

/-- Target total supply in mps units (`TOTAL_TARGET = 10_000_000`). -/
def TOTAL_TARGET : ℤ := 10000000

/-- Number of segments for the first 70% of supply (`NUM_SEGMENTS = 10`). -/
def NUM_SEGMENTS : ℕ := 10

/-- Exponential growth factor (`GROWTH_EXPONENT = 1.2`), as the exact rational 6/5. -/
def GROWTH_EXPONENT : ℚ := 6/5

/-- Python's built-in `round`: round to nearest integer, ties to even. -/
def pyRound {K : Type*} [LinearOrderedField K] [FloorRing K] (q : K) : ℤ :=
  if q - ⌊q⌋ < 1/2 then ⌊q⌋
  else if (1 : K)/2 < q - ⌊q⌋ then ⌊q⌋ + 1
  else if 2 ∣ ⌊q⌋ then ⌊q⌋ else ⌊q⌋ + 1

/-- `durations[-1] = f(durations[-1])`: rewrite the last element of a list. -/
def modifyLast (f : ℤ → ℤ) : List ℤ → List ℤ
  | [] => []
  | [d] => [f d]
  | d :: rest => d :: modifyLast f rest

/-- `geometric_sum = (growth_factor ** num_segments - 1) / (growth_factor - 1)`. -/
def geometricSum (growth_factor : ℚ) (num_segments : ℕ) : ℚ :=
  (growth_factor ^ num_segments - 1) / (growth_factor - 1)

/-- The rounded, floored-at-1 geometric durations
`max(1, round(b0 * growth_factor ** i))` for `i in range(num_segments)`,
with `b0 = total_blocks / geometric_sum`. -/
def rawDurations (total_blocks : ℤ) (num_segments : ℕ) (growth_factor : ℚ) :
    List ℤ :=
  (List.range num_segments).map fun i =>
    max 1 (pyRound ((total_blocks : ℚ) / geometricSum growth_factor num_segments *
      growth_factor ^ i))

/-- `calculate_block_durations` from `server.py`: geometric-progression
segment durations, rounded, floored at 1, with the residual added to the
last segment and that value re-floored at 1. -/
def calculate_block_durations (total_blocks : ℤ) (num_segments : ℕ)
    (growth_factor : ℚ) : List ℤ :=
  let durations := rawDurations total_blocks num_segments growth_factor
  let actual_total : ℤ := durations.sum
  if actual_total ≠ total_blocks then
    modifyLast (fun d => max 1 (d + (total_blocks - actual_total))) durations
  else durations

/-- One schedule entry: `{"mps": ..., "blockDelta": ...}`. -/
structure Phase where
  mps : ℤ
  blockDelta : ℤ
deriving DecidableEq, Repr

/-- `sum(item["mps"] * item["blockDelta"] for item in schedule)`. -/
def scheduleTotal (s : List Phase) : ℤ :=
  (s.map fun ph => ph.mps * ph.blockDelta).sum

/-- `sum(item["blockDelta"] for item in schedule)`. -/
def blockSum (s : List Phase) : ℤ :=
  (s.map Phase.blockDelta).sum

/-- Cumulative token amount at a block position:
`(pos / blocks_for_segments) ** GROWTH_EXPONENT * 0.7 * TOTAL_TARGET`. -/
noncomputable def cumTokens (blocks_for_segments : ℝ) (pos : ℝ) : ℝ :=
  (pos / blocks_for_segments) ^ ((GROWTH_EXPONENT : ℚ) : ℝ) * 0.7 * (TOTAL_TARGET : ℝ)

/-- The per-segment loop of `generate_schedule`: walks the planned durations
with a cumulative block cursor, assigning each segment
`mps = round(segment_tokens / block_delta)` floored at 1 when
`segment_tokens > 0`. -/
noncomputable def segmentPhases (T : ℝ) : List ℤ → ℤ → List Phase
  | [], _ => []
  | d :: rest, cumulative_blocks =>
      let segment_tokens : ℝ :=
        cumTokens T ((cumulative_blocks + d : ℤ) : ℝ) -
          cumTokens T ((cumulative_blocks : ℤ) : ℝ)
      let mps0 : ℤ := pyRound (segment_tokens / (d : ℝ))
      let mps : ℤ := if 0 < segment_tokens then max 1 mps0 else mps0
      ⟨mps, d⟩ :: segmentPhases T rest (cumulative_blocks + d)

/-- Segment phases plus the final single-block remainder phase
(`TOTAL_TARGET - cumulative_tokens`). -/
noncomputable def mainPhases (blocks_for_segments : ℤ) : List Phase :=
  let block_durations :=
    calculate_block_durations blocks_for_segments NUM_SEGMENTS GROWTH_EXPONENT
  let segs := segmentPhases (blocks_for_segments : ℝ) block_durations 0
  segs ++ [⟨TOTAL_TARGET - scheduleTotal segs, 1⟩]

/-- `generate_schedule` from `server.py`.  `none` models the
`ZeroDivisionError` raised when `blocks_for_segments = auction_blocks - 1`
is not positive (at `auction_blocks = 1` the segment loop divides by zero;
at `auction_blocks ≤ 0` the negative-base float power fails). -/
noncomputable def generate_schedule (auction_blocks prebid_blocks : ℤ) :
    Option (List Phase) :=
  if auction_blocks - 1 ≤ 0 then none
  else some
    ((if 0 < prebid_blocks then [⟨0, prebid_blocks⟩] else []) ++
      mainPhases (auction_blocks - 1))

/-- The pydantic validation of `GenerateScheduleInput`:
`auction_blocks` with `gt=0`, `prebid_blocks` with `ge=0`. -/
def validateInput (auction_blocks prebid_blocks : ℤ) : Bool :=
  decide (0 < auction_blocks) && decide (0 ≤ prebid_blocks)

/-- Boolean check that a list of integers is non-decreasing. -/
def nondecB : List ℤ → Bool
  | [] => true
  | [_] => true
  | a :: b :: l => decide (a ≤ b) && nondecB (b :: l)

/-! ### Lemmas about `pyRound` -/

section PyRound

variable {K : Type*} [LinearOrderedField K] [FloorRing K]

lemma le_pyRound (q : K) : q - 1/2 ≤ (pyRound q : K) := by
  have h1 : (⌊q⌋ : K) ≤ q := Int.floor_le q
  have h2 : q < ⌊q⌋ + 1 := Int.lt_floor_add_one q
  unfold pyRound
  split_ifs with ha hb hc <;> push_cast <;> linarith

lemma pyRound_le (q : K) : (pyRound q : K) ≤ q + 1/2 := by
  have h1 : (⌊q⌋ : K) ≤ q := Int.floor_le q
  have h2 : q < ⌊q⌋ + 1 := Int.lt_floor_add_one q
  unfold pyRound
  split_ifs with ha hb hc <;> push_cast <;> linarith

lemma pyRound_mono {x y : K} (h : x ≤ y) : pyRound x ≤ pyRound y := by
  by_contra hlt
  push_neg at hlt
  have h1 : ((pyRound y : ℤ) : K) + 1 ≤ ((pyRound x : ℤ) : K) := by
    exact_mod_cast hlt
  have h2 := pyRound_le x
  have h3 := le_pyRound y
  have hxy : x = y := by linarith
  subst hxy
  have : ((pyRound x : ℤ) : K) + 1 ≤ ((pyRound x : ℤ) : K) := by linarith
  linarith

lemma pyRound_pos_of_half_lt {q : K} (h : 1/2 < q) : 1 ≤ pyRound q := by
  have h1 := le_pyRound q
  have h2 : (0 : K) < (pyRound q : K) := by linarith
  have h3 : (0 : ℤ) < pyRound q := by exact_mod_cast h2
  omega

lemma max_one_pyRound_eq {q : K} (h : 1/2 < q) :
    max 1 (pyRound q) = pyRound q :=
  max_eq_right (pyRound_pos_of_half_lt h)

end PyRound

/-! ### Lemmas about `modifyLast` and `nondecB` -/

lemma modifyLast_append_singleton (f : ℤ → ℤ) (l : List ℤ) (a : ℤ) :
    modifyLast f (l ++ [a]) = l ++ [f a] := by
  induction l with
  | nil => rfl
  | cons x xs ih =>
      cases xs with
      | nil => rfl
      | cons y ys => simpa [modifyLast] using ih

lemma chain'_of_nondecB : ∀ l : List ℤ, nondecB l = true → List.Chain' (· ≤ ·) l
  | [], _ => by simp
  | [a], _ => by simp
  | a :: b :: l, h => by
      simp only [nondecB, Bool.and_eq_true, decide_eq_true_eq] at h
      exact List.Chain'.cons h.1 (chain'_of_nondecB (b :: l) h.2)

/-! ### Structure of `calculate_block_durations` -/

lemma rawDurations_length (T : ℤ) (n : ℕ) (g : ℚ) :
    (rawDurations T n g).length = n := by
  simp [rawDurations]

lemma rawDurations_one_le {T : ℤ} {n : ℕ} {g : ℚ} :
    ∀ d ∈ rawDurations T n g, 1 ≤ d := by
  intro d hd
  simp only [rawDurations, List.mem_map] at hd
  obtain ⟨i, _, rfl⟩ := hd
  exact le_max_left _ _

lemma rawDurations_ne_nil {T : ℤ} {n : ℕ} (hn : 0 < n) {g : ℚ} :
    rawDurations T n g ≠ [] := by
  intro h
  have := rawDurations_length T n g
  rw [h] at this
  simp at this
  omega

/-- The planner's output is always the raw durations with the last entry
replaced by `max 1 (total_blocks - sum-of-the-other-entries)`. -/
lemma calculate_block_durations_decomp (T : ℤ) (n : ℕ) (g : ℚ) (hn : 0 < n) :
    calculate_block_durations T n g =
      (rawDurations T n g).dropLast ++
        [max 1 (T - (rawDurations T n g).dropLast.sum)] := by
  have hne : rawDurations T n g ≠ [] := rawDurations_ne_nil hn
  have hsplit : (rawDurations T n g).dropLast ++ [(rawDurations T n g).getLast hne] =
      rawDurations T n g := List.dropLast_append_getLast hne
  have hsum : (rawDurations T n g).sum =
      (rawDurations T n g).dropLast.sum + (rawDurations T n g).getLast hne := by
    conv_lhs => rw [← hsplit]
    simp
  have hlast1 : 1 ≤ (rawDurations T n g).getLast hne :=
    rawDurations_one_le _ (List.getLast_mem hne)
  show (if (rawDurations T n g).sum ≠ T then _ else _) = _
  split_ifs with hneq
  · conv_lhs => rw [← hsplit]
    rw [modifyLast_append_singleton]
    simp only [List.sum_append, List.sum_cons, List.sum_nil, add_zero]
    have harg : (rawDurations T n g).getLast hne +
        (T - ((rawDurations T n g).dropLast.sum + (rawDurations T n g).getLast hne)) =
        T - (rawDurations T n g).dropLast.sum := by ring
    rw [harg]
  · push_neg at hneq
    conv_lhs => rw [← hsplit]
    have : max 1 (T - (rawDurations T n g).dropLast.sum) =
        (rawDurations T n g).getLast hne := by
      have h1 : T - (rawDurations T n g).dropLast.sum =
          (rawDurations T n g).getLast hne := by omega
      rw [h1]
      exact max_eq_right hlast1
    rw [this]

lemma calculate_block_durations_dropLast (T : ℤ) (n : ℕ) (g : ℚ) (hn : 0 < n) :
    (calculate_block_durations T n g).dropLast = (rawDurations T n g).dropLast := by
  rw [calculate_block_durations_decomp T n g hn]
  simp

lemma calculate_block_durations_length (T : ℤ) (n : ℕ) (g : ℚ) (hn : 0 < n) :
    (calculate_block_durations T n g).length = n := by
  rw [calculate_block_durations_decomp T n g hn]
  have := rawDurations_length T n g
  have hne : rawDurations T n g ≠ [] := rawDurations_ne_nil hn
  simp only [List.length_append, List.length_dropLast, this, List.length_singleton]
  omega

lemma calculate_block_durations_one_le {T : ℤ} {n : ℕ} {g : ℚ} (hn : 0 < n) :
    ∀ d ∈ calculate_block_durations T n g, 1 ≤ d := by
  rw [calculate_block_durations_decomp T n g hn]
  intro d hd
  rcases List.mem_append.1 hd with h | h
  · exact rawDurations_one_le d (List.dropLast_subset _ h)
  · simp only [List.mem_singleton] at h
    subst h
    exact le_max_left _ _

lemma calculate_block_durations_sum (T : ℤ) (n : ℕ) (g : ℚ) (hn : 0 < n) :
    (calculate_block_durations T n g).sum =
      max T ((calculate_block_durations T n g).dropLast.sum + 1) := by
  rw [calculate_block_durations_dropLast T n g hn,
    calculate_block_durations_decomp T n g hn]
  simp only [List.sum_append, List.sum_cons, List.sum_nil, add_zero]
  omega

/-! ### Exactness of the planned sum for large enough budgets -/

lemma geometricSum_ten : geometricSum (6/5) 10 = 253502755/9765625 := by
  norm_num [geometricSum]

lemma rawDurations_ten_dropLast (T : ℤ) :
    (rawDurations T 10 (6/5)).dropLast =
      (List.range 9).map fun i =>
        max 1 (pyRound ((T : ℚ) / geometricSum (6/5) 10 * (6/5) ^ i)) := rfl

lemma rawDurations_dropLast_sum_le {T : ℤ} (hT : 28 ≤ T) :
    (rawDurations T 10 (6/5)).dropLast.sum + 1 ≤ T := by
  have hTq : (28 : ℚ) ≤ (T : ℚ) := by exact_mod_cast hT
  rw [rawDurations_ten_dropLast]
  set q : ℚ := (T : ℚ) / geometricSum (6/5) 10 with hq
  have hqe : q = (T : ℚ) * (9765625/253502755) := by
    rw [hq, geometricSum_ten]; ring
  have hq2 : 1/2 < q := by rw [hqe]; linarith
  have hq0 : (0 : ℚ) ≤ q := by linarith
  have hterm : ∀ i : ℕ, max 1 (pyRound (q * (6/5)^i)) = pyRound (q * (6/5)^i) := by
    intro i
    refine max_one_pyRound_eq (lt_of_lt_of_le hq2 ?_)
    calc q = q * 1 := (mul_one q).symm
    _ ≤ q * (6/5)^i := by
        apply mul_le_mul_of_nonneg_left _ hq0
        exact one_le_pow₀ (by norm_num)
  rw [show (List.range 9) = [0,1,2,3,4,5,6,7,8] from rfl]
  simp only [List.map_cons, List.map_nil, List.sum_cons, List.sum_nil, hterm, add_zero]
  have p0 := pyRound_le (q * (6/5)^0)
  have p1 := pyRound_le (q * (6/5)^1)
  have p2 := pyRound_le (q * (6/5)^2)
  have p3 := pyRound_le (q * (6/5)^3)
  have p4 := pyRound_le (q * (6/5)^4)
  have p5 := pyRound_le (q * (6/5)^5)
  have p6 := pyRound_le (q * (6/5)^6)
  have p7 := pyRound_le (q * (6/5)^7)
  have p8 := pyRound_le (q * (6/5)^8)
  qify
  norm_num at p0 p1 p2 p3 p4 p5 p6 p7 p8 ⊢
  linarith [hqe]

lemma durations_sum_eq_28 {T : ℤ} (hT : 28 ≤ T) :
    (calculate_block_durations T 10 (6/5)).sum = T := by
  have h1 := calculate_block_durations_sum T 10 (6/5) (by norm_num)
  have h2 := rawDurations_dropLast_sum_le hT
  rw [calculate_block_durations_dropLast T 10 (6/5) (by norm_num)] at h1
  rw [h1, max_eq_left h2]

lemma durations_sum_scan :
    ((List.range 16).all fun k =>
      decide ((calculate_block_durations (12 + (k : ℤ)) 10 (6/5)).sum = 12 + (k : ℤ))) =
      true := by
  with_unfolding_all rfl

lemma durations_sum_eq_12 {T : ℤ} (hT : 12 ≤ T) :
    (calculate_block_durations T 10 (6/5)).sum = T := by
  rcases le_or_lt 28 T with h | h
  · exact durations_sum_eq_28 h
  · have hk : ∃ k : ℕ, k < 16 ∧ T = 12 + (k : ℤ) := ⟨(T - 12).toNat, by omega, by omega⟩
    obtain ⟨k, hk16, rfl⟩ := hk
    have := List.all_eq_true.mp durations_sum_scan k (List.mem_range.mpr hk16)
    exact of_decide_eq_true this

/-! ### Monotonicity of the planned durations for large enough budgets -/

lemma durations_chain_151 {T : ℤ} (hT : 151 ≤ T) :
    List.Chain' (· ≤ ·) (calculate_block_durations T 10 (6/5)) := by
  have hTq : (151 : ℚ) ≤ (T : ℚ) := by exact_mod_cast hT
  rw [calculate_block_durations_decomp T 10 (6/5) (by norm_num),
    rawDurations_ten_dropLast]
  set q : ℚ := (T : ℚ) / geometricSum (6/5) 10 with hq
  have hqe : q = (T : ℚ) * (9765625/253502755) := by
    rw [hq, geometricSum_ten]; ring
  have hq2 : 1/2 < q := by rw [hqe]; linarith
  have hq0 : (0 : ℚ) ≤ q := by linarith
  have hterm : ∀ i : ℕ, max 1 (pyRound (q * (6/5)^i)) = pyRound (q * (6/5)^i) := by
    intro i
    refine max_one_pyRound_eq (lt_of_lt_of_le hq2 ?_)
    calc q = q * 1 := (mul_one q).symm
    _ ≤ q * (6/5)^i := by
        apply mul_le_mul_of_nonneg_left _ hq0
        exact one_le_pow₀ (by norm_num)
  have hmono : ∀ i : ℕ, pyRound (q * (6/5)^i) ≤ pyRound (q * ((6/5):ℚ)^(i+1)) := by
    intro i
    apply pyRound_mono
    apply mul_le_mul_of_nonneg_left _ hq0
    apply pow_le_pow_right₀ (by norm_num)
    omega
  rw [show (List.range 9) = [0,1,2,3,4,5,6,7,8] from rfl]
  simp only [List.map_cons, List.map_nil, hterm, List.sum_cons, List.sum_nil, add_zero]
  have p0 := pyRound_le (q * (6/5)^0)
  have p1 := pyRound_le (q * (6/5)^1)
  have p2 := pyRound_le (q * (6/5)^2)
  have p3 := pyRound_le (q * (6/5)^3)
  have p4 := pyRound_le (q * (6/5)^4)
  have p5 := pyRound_le (q * (6/5)^5)
  have p6 := pyRound_le (q * (6/5)^6)
  have p7 := pyRound_le (q * (6/5)^7)
  have p8 := pyRound_le (q * (6/5)^8)
  have hlast : pyRound (q * (6/5)^8) ≤
      max 1 (T - (pyRound (q * (6/5)^0) + (pyRound (q * (6/5)^1) +
        (pyRound (q * (6/5)^2) + (pyRound (q * (6/5)^3) + (pyRound (q * (6/5)^4) +
        (pyRound (q * (6/5)^5) + (pyRound (q * (6/5)^6) + (pyRound (q * (6/5)^7) +
        pyRound (q * (6/5)^8)))))))))) := by
    apply le_max_of_le_right
    have hgoal : (pyRound (q * (6/5)^8) : ℚ) ≤ (T : ℚ) -
        ((pyRound (q * (6/5)^0) : ℚ) + ((pyRound (q * (6/5)^1) : ℚ) +
        ((pyRound (q * (6/5)^2) : ℚ) + ((pyRound (q * (6/5)^3) : ℚ) +
        ((pyRound (q * (6/5)^4) : ℚ) + ((pyRound (q * (6/5)^5) : ℚ) +
        ((pyRound (q * (6/5)^6) : ℚ) + ((pyRound (q * (6/5)^7) : ℚ) +
        (pyRound (q * (6/5)^8) : ℚ))))))))) := by
      norm_num at p0 p1 p2 p3 p4 p5 p6 p7 p8 ⊢
      linarith [hqe]
    exact_mod_cast hgoal
  simp only [List.cons_append, List.nil_append, List.chain'_cons,
    List.chain'_singleton, and_true]
  exact ⟨hmono 0, hmono 1, hmono 2, hmono 3, hmono 4, hmono 5, hmono 6, hmono 7, hlast⟩

lemma durations_chain_scan :
    ((List.range 110).all fun k =>
      nondecB (calculate_block_durations (41 + (k : ℤ)) 10 (6/5))) = true := by
  with_unfolding_all rfl

lemma durations_chain_41 {T : ℤ} (hT : 41 ≤ T) :
    List.Chain' (· ≤ ·) (calculate_block_durations T 10 (6/5)) := by
  rcases le_or_lt 151 T with h | h
  · exact durations_chain_151 h
  · obtain ⟨k, hk, rfl⟩ : ∃ k : ℕ, k < 110 ∧ T = 41 + (k : ℤ) :=
      ⟨(T - 41).toNat, by omega, by omega⟩
    exact chain'_of_nondecB _
      (List.all_eq_true.mp durations_chain_scan k (List.mem_range.mpr hk))

/-! ### Structure of the sampled phases and schedules -/

lemma qexp_eq : ((GROWTH_EXPONENT : ℚ) : ℝ) = 6/5 := by
  norm_num [GROWTH_EXPONENT]

lemma total_target_real : ((TOTAL_TARGET : ℤ) : ℝ) = 10000000 := by
  norm_num [TOTAL_TARGET]

lemma scheduleTotal_nil : scheduleTotal [] = 0 := rfl

lemma scheduleTotal_cons (ph : Phase) (l : List Phase) :
    scheduleTotal (ph :: l) = ph.mps * ph.blockDelta + scheduleTotal l := by
  simp [scheduleTotal]

lemma scheduleTotal_append (l₁ l₂ : List Phase) :
    scheduleTotal (l₁ ++ l₂) = scheduleTotal l₁ + scheduleTotal l₂ := by
  simp [scheduleTotal]

lemma blockSum_cons (ph : Phase) (l : List Phase) :
    blockSum (ph :: l) = ph.blockDelta + blockSum l := by
  simp [blockSum]

lemma blockSum_append (l₁ l₂ : List Phase) :
    blockSum (l₁ ++ l₂) = blockSum l₁ + blockSum l₂ := by
  simp [blockSum]

lemma segmentPhases_map_blockDelta (T : ℝ) :
    ∀ (ds : List ℤ) (c : ℤ), (segmentPhases T ds c).map Phase.blockDelta = ds
  | [], _ => rfl
  | d :: rest, c => by
      simp only [segmentPhases, List.map_cons, List.cons.injEq]
      exact ⟨trivial, segmentPhases_map_blockDelta T rest (c + d)⟩

lemma segmentPhases_blockSum (T : ℝ) (ds : List ℤ) (c : ℤ) :
    blockSum (segmentPhases T ds c) = ds.sum := by
  rw [blockSum, segmentPhases_map_blockDelta]

lemma cumTokens_lt {T : ℝ} (hT : 0 < T) {x y : ℝ} (hx : 0 ≤ x) (hxy : x < y) :
    cumTokens T x < cumTokens T y := by
  unfold cumTokens
  rw [qexp_eq, total_target_real]
  have hdiv : x / T < y / T := (div_lt_div_iff_of_pos_right hT).mpr hxy
  have hpow : (x / T) ^ ((6:ℝ)/5) < (y / T) ^ ((6:ℝ)/5) :=
    Real.rpow_lt_rpow (div_nonneg hx hT.le) hdiv (by norm_num)
  nlinarith [hpow]

lemma segmentPhases_mps_one_le {T : ℝ} (hT : 0 < T) :
    ∀ (ds : List ℤ) (c : ℤ), (∀ d ∈ ds, 1 ≤ d) → 0 ≤ c →
      ∀ ph ∈ segmentPhases T ds c, 1 ≤ ph.mps
  | [], _, _, _ => by simp [segmentPhases]
  | d :: rest, c, hd, hc => by
      have hd1 : 1 ≤ d := hd d (List.mem_cons_self d rest)
      have hpos : (0 : ℝ) <
          cumTokens T ((c + d : ℤ) : ℝ) - cumTokens T ((c : ℤ) : ℝ) := by
        have : cumTokens T ((c : ℤ) : ℝ) < cumTokens T ((c + d : ℤ) : ℝ) := by
          apply cumTokens_lt hT (by exact_mod_cast hc)
          push_cast
          have : (1 : ℝ) ≤ (d : ℝ) := by exact_mod_cast hd1
          linarith
        linarith
      intro ph hph
      simp only [segmentPhases, List.mem_cons] at hph
      rcases hph with h | h
      · subst h
        simp only [if_pos hpos]
        exact le_max_left _ _
      · exact segmentPhases_mps_one_le hT rest (c + d)
          (fun x hx => hd x (List.mem_cons_of_mem d hx)) (by omega) ph h

lemma generate_schedule_eq {a : ℤ} (ha : 2 ≤ a) (p : ℤ) :
    generate_schedule a p =
      some ((if 0 < p then [⟨0, p⟩] else []) ++ mainPhases (a - 1)) := by
  unfold generate_schedule
  rw [if_neg (by omega)]

lemma mainPhases_eq (T : ℤ) :
    mainPhases T =
      segmentPhases (T : ℝ)
          (calculate_block_durations T NUM_SEGMENTS GROWTH_EXPONENT) 0 ++
        [⟨TOTAL_TARGET -
            scheduleTotal (segmentPhases (T : ℝ)
              (calculate_block_durations T NUM_SEGMENTS GROWTH_EXPONENT) 0), 1⟩] :=
  rfl

lemma scheduleTotal_mainPhases (T : ℤ) :
    scheduleTotal (mainPhases T) = TOTAL_TARGET := by
  rw [mainPhases_eq, scheduleTotal_append, scheduleTotal_cons, scheduleTotal_nil]
  ring

/-! ### Real-analytic bounds on the sampled emission rates -/

lemma real_rpow_superadd {x y p : ℝ} (hx : 0 ≤ x) (hy : 0 ≤ y) (hp : 1 ≤ p) :
    x ^ p + y ^ p ≤ (x + y) ^ p := by
  have h := NNReal.add_rpow_le_rpow_add x.toNNReal y.toNNReal hp
  have hc : ((x.toNNReal ^ p + y.toNNReal ^ p : ℝ≥0) : ℝ) ≤
      (((x.toNNReal + y.toNNReal) ^ p : ℝ≥0) : ℝ) := by exact_mod_cast h
  push_cast at hc
  rwa [Real.coe_toNNReal x hx, Real.coe_toNNReal y hy] at hc

lemma cumTokens_eq (T pos : ℝ) :
    cumTokens T pos = 7000000 * (pos / T) ^ ((6:ℝ)/5) := by
  unfold cumTokens
  rw [qexp_eq, total_target_real]
  ring

lemma cumTokens_zero (T : ℝ) : cumTokens T 0 = 0 := by
  rw [cumTokens_eq, zero_div, Real.zero_rpow (by norm_num), mul_zero]

lemma cumTokens_self {T : ℝ} (hT : 0 < T) : cumTokens T T = 7000000 := by
  rw [cumTokens_eq, div_self hT.ne', Real.one_rpow, mul_one]

lemma segTok_ge {T : ℝ} (hT : 0 < T) {c d : ℤ} (hc : 0 ≤ c) (hd : 1 ≤ d) :
    7000000 * ((d : ℝ) / T) ^ ((6:ℝ)/5) ≤
      cumTokens T ((c + d : ℤ) : ℝ) - cumTokens T ((c : ℤ) : ℝ) := by
  rw [cumTokens_eq, cumTokens_eq]
  have hc0 : (0:ℝ) ≤ (c:ℝ) := by exact_mod_cast hc
  have hd0 : (0:ℝ) ≤ (d:ℝ) := by exact_mod_cast (by omega : (0:ℤ) ≤ d)
  have hsplit : ((c + d : ℤ) : ℝ) / T = (c:ℝ)/T + (d:ℝ)/T := by
    push_cast
    ring
  rw [hsplit]
  have hsup := real_rpow_superadd (div_nonneg hc0 hT.le) (div_nonneg hd0 hT.le)
    (by norm_num : (1:ℝ) ≤ 6/5)
  linarith

lemma rate_gt_half {T : ℝ} (hT : 0 < T) (hT14 : T ^ ((6:ℝ)/5) < 14000000)
    {c d : ℤ} (hc : 0 ≤ c) (hd : 1 ≤ d) :
    1/2 < (cumTokens T ((c + d : ℤ) : ℝ) - cumTokens T ((c : ℤ) : ℝ)) / (d : ℝ) := by
  have hd0 : (0:ℝ) < (d:ℝ) := by exact_mod_cast (by omega : (0:ℤ) < d)
  have hd1 : (1:ℝ) ≤ (d:ℝ) := by exact_mod_cast hd
  have h1 := segTok_ge hT hc hd
  have hdq : (d:ℝ) ≤ (d:ℝ) ^ ((6:ℝ)/5) := by
    have h := Real.rpow_le_rpow_of_exponent_le hd1 (by norm_num : (1:ℝ) ≤ 6/5)
    rwa [Real.rpow_one] at h
  have hTq0 : 0 < T ^ ((6:ℝ)/5) := Real.rpow_pos_of_pos hT _
  have hdiv : ((d:ℝ)/T) ^ ((6:ℝ)/5) = (d:ℝ)^((6:ℝ)/5) / T^((6:ℝ)/5) :=
    Real.div_rpow hd0.le hT.le _
  rw [lt_div_iff₀ hd0]
  have step1 : (1/2) * (d:ℝ) < (7000000 / T^((6:ℝ)/5)) * (d:ℝ) := by
    apply mul_lt_mul_of_pos_right _ hd0
    rw [lt_div_iff₀ hTq0]
    linarith
  have step2 : (7000000 / T^((6:ℝ)/5)) * (d:ℝ) ≤
      7000000 * (((d:ℝ))/T)^((6:ℝ)/5) := by
    rw [hdiv, div_mul_eq_mul_div, mul_div_assoc]
    exact mul_le_mul_of_nonneg_left
      ((div_le_div_iff_of_pos_right hTq0).mpr hdq) (by norm_num)
  linarith

lemma segmentPhases_cons (T : ℝ) (d : ℤ) (rest : List ℤ) (c : ℤ) :
    segmentPhases T (d :: rest) c =
      ⟨(if 0 < cumTokens T ((c + d : ℤ) : ℝ) - cumTokens T ((c : ℤ) : ℝ) then
          max 1 (pyRound ((cumTokens T ((c + d : ℤ) : ℝ) -
            cumTokens T ((c : ℤ) : ℝ)) / (d : ℝ)))
        else pyRound ((cumTokens T ((c + d : ℤ) : ℝ) -
          cumTokens T ((c : ℤ) : ℝ)) / (d : ℝ))), d⟩ ::
        segmentPhases T rest (c + d) := rfl

/-- Loose two-sided bound on the allocated supply of the segment phases:
the total lies within `[curve-difference − Σd/2, curve-difference + Σd]`. -/
lemma segmentPhases_total_bounds {T : ℝ} (hT : 0 < T) :
    ∀ (ds : List ℤ) (c : ℤ), (∀ d ∈ ds, 1 ≤ d) → 0 ≤ c →
      cumTokens T ((c + ds.sum : ℤ) : ℝ) - cumTokens T ((c : ℤ) : ℝ) -
          (ds.sum : ℝ) / 2 ≤ (scheduleTotal (segmentPhases T ds c) : ℝ) ∧
      (scheduleTotal (segmentPhases T ds c) : ℝ) ≤
        cumTokens T ((c + ds.sum : ℤ) : ℝ) - cumTokens T ((c : ℤ) : ℝ) +
          (ds.sum : ℝ)
  | [], c, _, _ => by
      simp [segmentPhases, scheduleTotal_nil]
  | d :: rest, c, hd, hc => by
      have hd1 : 1 ≤ d := hd d (List.mem_cons_self d rest)
      have hd0 : (0:ℝ) < (d:ℝ) := by exact_mod_cast (by omega : (0:ℤ) < d)
      have hcR : (0:ℝ) ≤ ((c : ℤ) : ℝ) := by exact_mod_cast hc
      have hlt : ((c : ℤ) : ℝ) < ((c + d : ℤ) : ℝ) := by
        push_cast
        linarith
      have hpos : 0 < cumTokens T ((c + d : ℤ) : ℝ) - cumTokens T ((c : ℤ) : ℝ) :=
        sub_pos.mpr (cumTokens_lt hT hcR hlt)
      obtain ⟨ih1, ih2⟩ := segmentPhases_total_bounds hT rest (c + d)
        (fun x hx => hd x (List.mem_cons_of_mem d hx)) (by omega)
      rw [segmentPhases_cons, scheduleTotal_cons, if_pos hpos]
      have hle := pyRound_le ((cumTokens T ((c + d : ℤ) : ℝ) -
        cumTokens T ((c : ℤ) : ℝ)) / (d : ℝ))
      have hge := le_pyRound ((cumTokens T ((c + d : ℤ) : ℝ) -
        cumTokens T ((c : ℤ) : ℝ)) / (d : ℝ))
      have hrate : (cumTokens T ((c + d : ℤ) : ℝ) -
          cumTokens T ((c : ℤ) : ℝ)) / (d : ℝ) * (d : ℝ) =
          cumTokens T ((c + d : ℤ) : ℝ) - cumTokens T ((c : ℤ) : ℝ) :=
        div_mul_cancel₀ _ hd0.ne'
      set m0 : ℤ := pyRound ((cumTokens T ((c + d : ℤ) : ℝ) -
        cumTokens T ((c : ℤ) : ℝ)) / (d : ℝ)) with hm0
      have hmub : ((max 1 m0 : ℤ) : ℝ) * (d : ℝ) ≤
          (cumTokens T ((c + d : ℤ) : ℝ) - cumTokens T ((c : ℤ) : ℝ)) + (d : ℝ) := by
        rcases le_or_lt m0 1 with h | h
        · rw [max_eq_left h]
          rw [show ((1:ℤ):ℝ) = 1 from by norm_num, one_mul]
          linarith
        · rw [max_eq_right h.le]
          have h2 := mul_le_mul_of_nonneg_right hle hd0.le
          rw [add_mul, hrate] at h2
          linarith
      have hmlb : (cumTokens T ((c + d : ℤ) : ℝ) - cumTokens T ((c : ℤ) : ℝ)) -
          (d : ℝ) / 2 ≤ ((max 1 m0 : ℤ) : ℝ) * (d : ℝ) := by
        have h1 : ((m0 : ℤ) : ℝ) ≤ ((max 1 m0 : ℤ) : ℝ) :=
          Int.cast_le.mpr (le_max_right _ _)
        have h2 := mul_le_mul_of_nonneg_right hge hd0.le
        rw [sub_mul, hrate] at h2
        have h3 := mul_le_mul_of_nonneg_right h1 hd0.le
        linarith
      have htel : (c + (d :: rest).sum : ℤ) = ((c + d) + rest.sum : ℤ) := by
        simp only [List.sum_cons]
        ring
      rw [htel]
      have hsum : ((d :: rest).sum : ℝ) = (d : ℝ) + (rest.sum : ℝ) := by
        push_cast [List.sum_cons]
        ring
      rw [hsum]
      push_cast at ih1 ih2 hmub hmlb ⊢
      constructor <;> linarith

/-- Refined upper bound when `T ^ 1.2 < 1.4e7`: every segment's rate exceeds
1/2, so the 1-mps floor never fires and each segment's rounding error is at
most half its duration. -/
lemma segmentPhases_total_upper {T : ℝ} (hT : 0 < T)
    (hT14 : T ^ ((6:ℝ)/5) < 14000000) :
    ∀ (ds : List ℤ) (c : ℤ), (∀ d ∈ ds, 1 ≤ d) → 0 ≤ c →
      (scheduleTotal (segmentPhases T ds c) : ℝ) ≤
        cumTokens T ((c + ds.sum : ℤ) : ℝ) - cumTokens T ((c : ℤ) : ℝ) +
          (ds.sum : ℝ) / 2
  | [], c, _, _ => by
      simp [segmentPhases, scheduleTotal_nil]
  | d :: rest, c, hd, hc => by
      have hd1 : 1 ≤ d := hd d (List.mem_cons_self d rest)
      have hd0 : (0:ℝ) < (d:ℝ) := by exact_mod_cast (by omega : (0:ℤ) < d)
      have hcR : (0:ℝ) ≤ ((c : ℤ) : ℝ) := by exact_mod_cast hc
      have hlt : ((c : ℤ) : ℝ) < ((c + d : ℤ) : ℝ) := by
        push_cast
        linarith
      have hpos : 0 < cumTokens T ((c + d : ℤ) : ℝ) - cumTokens T ((c : ℤ) : ℝ) :=
        sub_pos.mpr (cumTokens_lt hT hcR hlt)
      have ih := segmentPhases_total_upper hT hT14 rest (c + d)
        (fun x hx => hd x (List.mem_cons_of_mem d hx)) (by omega)
      rw [segmentPhases_cons, scheduleTotal_cons, if_pos hpos]
      have hhalf := rate_gt_half hT hT14 hc hd1
      have hmax : max 1 (pyRound ((cumTokens T ((c + d : ℤ) : ℝ) -
          cumTokens T ((c : ℤ) : ℝ)) / (d : ℝ))) =
          pyRound ((cumTokens T ((c + d : ℤ) : ℝ) -
            cumTokens T ((c : ℤ) : ℝ)) / (d : ℝ)) :=
        max_one_pyRound_eq hhalf
      rw [hmax]
      have hle := pyRound_le ((cumTokens T ((c + d : ℤ) : ℝ) -
        cumTokens T ((c : ℤ) : ℝ)) / (d : ℝ))
      have hrate : (cumTokens T ((c + d : ℤ) : ℝ) -
          cumTokens T ((c : ℤ) : ℝ)) / (d : ℝ) * (d : ℝ) =
          cumTokens T ((c + d : ℤ) : ℝ) - cumTokens T ((c : ℤ) : ℝ) :=
        div_mul_cancel₀ _ hd0.ne'
      have hub := mul_le_mul_of_nonneg_right hle hd0.le
      rw [add_mul, hrate] at hub
      have htel : (c + (d :: rest).sum : ℤ) = ((c + d) + rest.sum : ℤ) := by
        simp only [List.sum_cons]
        ring
      rw [htel]
      have hsum : ((d :: rest).sum : ℝ) = (d : ℝ) + (rest.sum : ℝ) := by
        push_cast [List.sum_cons]
        ring
      rw [hsum]
      push_cast at ih hub ⊢
      linarith

lemma rpow_lt_14m {x : ℝ} (h1 : 0 ≤ x) (h2 : x ≤ 604799) :
    x ^ ((6:ℝ)/5) < 14000000 := by
  have hb : (604799 : ℝ) ^ ((6:ℝ)/5) < 14000000 := by
    have e1 : ((604799 : ℝ) ^ ((6:ℝ)/5)) ^ (5:ℕ) = (604799 : ℝ) ^ (6:ℕ) := by
      rw [← Real.rpow_natCast ((604799 : ℝ) ^ ((6:ℝ)/5)) 5,
        ← Real.rpow_mul (by norm_num : (0:ℝ) ≤ 604799),
        show ((6:ℝ)/5) * ((5:ℕ):ℝ) = ((6:ℕ):ℝ) from by norm_num,
        Real.rpow_natCast]
    have key : ((604799 : ℝ) ^ ((6:ℝ)/5)) ^ (5:ℕ) < (14000000 : ℝ) ^ (5:ℕ) := by
      rw [e1]
      norm_num
    by_contra hcon
    push_neg at hcon
    have hmono := pow_le_pow_left₀ (by norm_num : (0:ℝ) ≤ 14000000) hcon 5
    linarith
  calc x ^ ((6:ℝ)/5) ≤ (604799 : ℝ) ^ ((6:ℝ)/5) :=
        Real.rpow_le_rpow h1 h2 (by norm_num)
  _ < 14000000 := hb

lemma scheduleTotal_segs_lb {T : ℤ} (h12 : 12 ≤ T) :
    7000000 - (T : ℝ) / 2 ≤
      (scheduleTotal (segmentPhases ((T : ℤ) : ℝ)
        (calculate_block_durations T NUM_SEGMENTS GROWTH_EXPONENT) 0) : ℝ) := by
  have hT0 : (0:ℝ) < ((T : ℤ) : ℝ) := by
    exact_mod_cast (by omega : (0:ℤ) < T)
  have hds1 : ∀ d ∈ calculate_block_durations T NUM_SEGMENTS GROWTH_EXPONENT,
      1 ≤ d := calculate_block_durations_one_le (by norm_num [NUM_SEGMENTS])
  have hsum : (calculate_block_durations T NUM_SEGMENTS GROWTH_EXPONENT).sum = T := by
    simp only [NUM_SEGMENTS, GROWTH_EXPONENT]
    exact durations_sum_eq_12 h12
  have h := (segmentPhases_total_bounds hT0
    (calculate_block_durations T NUM_SEGMENTS GROWTH_EXPONENT) 0 hds1 le_rfl).1
  rw [hsum] at h
  simp only [zero_add, Int.cast_zero] at h
  rw [cumTokens_self hT0, cumTokens_zero] at h
  linarith

lemma scheduleTotal_segs_ub_loose {T : ℤ} (h12 : 12 ≤ T) :
    (scheduleTotal (segmentPhases ((T : ℤ) : ℝ)
        (calculate_block_durations T NUM_SEGMENTS GROWTH_EXPONENT) 0) : ℝ) ≤
      7000000 + (T : ℝ) := by
  have hT0 : (0:ℝ) < ((T : ℤ) : ℝ) := by
    exact_mod_cast (by omega : (0:ℤ) < T)
  have hds1 : ∀ d ∈ calculate_block_durations T NUM_SEGMENTS GROWTH_EXPONENT,
      1 ≤ d := calculate_block_durations_one_le (by norm_num [NUM_SEGMENTS])
  have hsum : (calculate_block_durations T NUM_SEGMENTS GROWTH_EXPONENT).sum = T := by
    simp only [NUM_SEGMENTS, GROWTH_EXPONENT]
    exact durations_sum_eq_12 h12
  have h := (segmentPhases_total_bounds hT0
    (calculate_block_durations T NUM_SEGMENTS GROWTH_EXPONENT) 0 hds1 le_rfl).2
  rw [hsum] at h
  simp only [zero_add, Int.cast_zero] at h
  rw [cumTokens_self hT0, cumTokens_zero] at h
  linarith

lemma scheduleTotal_segs_ub_refined {T : ℤ} (h12 : 12 ≤ T) (h604 : T ≤ 604799) :
    (scheduleTotal (segmentPhases ((T : ℤ) : ℝ)
        (calculate_block_durations T NUM_SEGMENTS GROWTH_EXPONENT) 0) : ℝ) ≤
      7000000 + (T : ℝ) / 2 := by
  have hT0 : (0:ℝ) < ((T : ℤ) : ℝ) := by
    exact_mod_cast (by omega : (0:ℤ) < T)
  have hT14 : ((T : ℤ) : ℝ) ^ ((6:ℝ)/5) < 14000000 :=
    rpow_lt_14m hT0.le (by exact_mod_cast h604)
  have hds1 : ∀ d ∈ calculate_block_durations T NUM_SEGMENTS GROWTH_EXPONENT,
      1 ≤ d := calculate_block_durations_one_le (by norm_num [NUM_SEGMENTS])
  have hsum : (calculate_block_durations T NUM_SEGMENTS GROWTH_EXPONENT).sum = T := by
    simp only [NUM_SEGMENTS, GROWTH_EXPONENT]
    exact durations_sum_eq_12 h12
  have h := segmentPhases_total_upper hT0 hT14
    (calculate_block_durations T NUM_SEGMENTS GROWTH_EXPONENT) 0 hds1 le_rfl
  rw [hsum] at h
  simp only [zero_add, Int.cast_zero] at h
  rw [cumTokens_self hT0, cumTokens_zero] at h
  linarith

lemma generate_schedule_isSome {a : ℤ} (ha : 2 ≤ a) (p : ℤ) :
    ∃ s, generate_schedule a p = some s :=
  ⟨_, generate_schedule_eq ha p⟩

lemma blockSum_mainPhases (T : ℤ) :
    blockSum (mainPhases T) =
      (calculate_block_durations T NUM_SEGMENTS GROWTH_EXPONENT).sum + 1 := by
  rw [mainPhases_eq, blockSum_append, segmentPhases_blockSum]
  simp [blockSum]

/-! ### Claims -/

/-- C1: for every valid request on which `generate_schedule` returns a
schedule, the sum over all phases of `mps * blockDelta` equals
`TOTAL_TARGET = 10,000,000` exactly, as integer equality. -/
theorem c1_exact_conservation {a p : ℤ} (hv : 1 ≤ a) {s : List Phase}
    (hs : generate_schedule a p = some s) :
    scheduleTotal s = TOTAL_TARGET := by
  by_cases ha : 2 ≤ a
  · rw [generate_schedule_eq ha p] at hs
    have hseq := Option.some_inj.mp hs
    subst hseq
    have hpre : scheduleTotal (if 0 < p then [(⟨0, p⟩ : Phase)] else []) = 0 := by
      split_ifs <;> simp [scheduleTotal]
    rw [scheduleTotal_append, scheduleTotal_mainPhases, hpre, zero_add]
  · have h1 : a - 1 ≤ 0 := by omega
    unfold generate_schedule at hs
    rw [if_pos h1] at hs
    cases hs

/-- Witness for C1 at the concrete request (2, 0). -/
theorem c1_witness :
    ∃ s, generate_schedule 2 0 = some s ∧ scheduleTotal s = TOTAL_TARGET := by
  obtain ⟨s, hs⟩ := generate_schedule_isSome (a := 2) (by norm_num) 0
  exact ⟨s, hs, c1_exact_conservation (by norm_num) hs⟩

/-- C2 (counterexample): at the valid request
(auctionBlocks, prebidBlocks) = (100, 50) the returned schedule's blockDelta
sum is 150 — auctionBlocks + prebidBlocks — not auctionBlocks = 100:
the prebid phase is prepended without being subtracted from the planner's
budget. -/
theorem c2_counterexample :
    ∃ s, generate_schedule 100 50 = some s ∧ blockSum s ≠ 100 := by
  refine ⟨_, generate_schedule_eq (by norm_num) 50, ?_⟩
  rw [blockSum_append, blockSum_mainPhases]
  have hsum : (calculate_block_durations (100 - 1 : ℤ) NUM_SEGMENTS
      GROWTH_EXPONENT).sum = 99 := by
    simp only [NUM_SEGMENTS, GROWTH_EXPONENT]
    exact durations_sum_eq_12 (by norm_num)
  rw [hsum, if_pos (by norm_num : (0:ℤ) < 50)]
  simp [blockSum]

/-- C2 (amended): for every valid request with auctionBlocks ≥ 13 the
blockDelta sum equals auctionBlocks + prebidBlocks, and the planner's budget
is auctionBlocks − 1 (the prebid period is never subtracted). -/
theorem c2_amended_block_coverage {a p : ℤ} (ha : 13 ≤ a) (hp : 0 ≤ p) :
    ∃ s, generate_schedule a p = some s ∧
      s.map Phase.blockDelta =
        (if 0 < p then [p] else []) ++
          calculate_block_durations (a - 1) NUM_SEGMENTS GROWTH_EXPONENT ++ [1] ∧
      blockSum s = a + p := by
  have hsum : (calculate_block_durations (a - 1) NUM_SEGMENTS
      GROWTH_EXPONENT).sum = a - 1 := by
    simp only [NUM_SEGMENTS, GROWTH_EXPONENT]
    exact durations_sum_eq_12 (by omega)
  refine ⟨_, generate_schedule_eq (by omega) p, ?_, ?_⟩
  · rw [mainPhases_eq]
    simp only [List.map_append, segmentPhases_map_blockDelta]
    split_ifs <;> simp
  · rw [blockSum_append, blockSum_mainPhases, hsum]
    split_ifs with hp0
    · simp only [blockSum, List.map_cons, List.map_nil, List.sum_cons,
        List.sum_nil]
      omega
    · have : p = 0 := by omega
      subst this
      simp only [blockSum, List.map_nil, List.sum_nil]
      omega

/-- Witness for C2 (amended) at the concrete request (13, 0). -/
theorem c2_witness :
    ∃ s, generate_schedule 13 0 = some s ∧
      s.map Phase.blockDelta =
        (if (0:ℤ) < 0 then [(0:ℤ)] else []) ++
          calculate_block_durations (13 - 1) NUM_SEGMENTS GROWTH_EXPONENT ++ [1] ∧
      blockSum s = 13 + 0 :=
  c2_amended_block_coverage (by norm_num) le_rfl

/-- C3 (code evaluation): the pydantic validation accepts
`auction_blocks = 1` (its only constraint is `gt=0`), yet
`generate_schedule 1 0` aborts inside the computation with a division by
zero (modelled as `none`) instead of being rejected as an invalid request
before computation; and the request (2, 5), whose
`auctionBlocks − prebidBlocks` is negative, is not rejected at all — a
complete schedule is returned. -/
theorem c3_validation_gap :
    validateInput 1 0 = true ∧ generate_schedule 1 0 = none ∧
      ∃ s, generate_schedule 2 5 = some s ∧ s ≠ [] := by
  refine ⟨rfl, ?_, ?_⟩
  · unfold generate_schedule
    rw [if_pos (by norm_num)]
  · refine ⟨_, generate_schedule_eq (by norm_num) 5, ?_⟩
    rw [if_pos (by norm_num : (0:ℤ) < 5)]
    simp

/-- C4 (counterexample): at totalBlocks = 1, segmentCount = 10,
growthFactor = 6/5 (all satisfying the claimed preconditions) the planner's
durations sum to 10, not 1: the floor-at-1 clamps defeat the residual
correction. -/
theorem c4_counterexample :
    (0 : ℤ) < 1 ∧ (0 : ℕ) < 10 ∧ (1 : ℚ) < 6/5 ∧
      (calculate_block_durations 1 10 (6/5)).sum ≠ 1 := by
  refine ⟨by norm_num, by norm_num, by norm_num, ?_⟩
  have h : (calculate_block_durations 1 10 (6/5)).sum = 10 := by
    with_unfolding_all rfl
  omega

/-- C4 (amended): the planner always returns exactly segmentCount integers,
each ≥ 1; their sum is `max totalBlocks (sum-of-all-but-last + 1)` — equal to
totalBlocks exactly whenever the rounded durations leave at least one block
for the last segment, and strictly greater otherwise (e.g. when
totalBlocks < segmentCount). -/
theorem c4_planner_contract (T : ℤ) (n : ℕ) (g : ℚ) (hT : 0 < T) (hn : 0 < n)
    (hg : 1 < g) :
    (calculate_block_durations T n g).length = n ∧
    (∀ d ∈ calculate_block_durations T n g, 1 ≤ d) ∧
    (calculate_block_durations T n g).sum =
      max T ((calculate_block_durations T n g).dropLast.sum + 1) :=
  ⟨calculate_block_durations_length T n g hn,
   calculate_block_durations_one_le hn,
   calculate_block_durations_sum T n g hn⟩

/-- Witness for C4 (amended) at (10, 10, 6/5). -/
theorem c4_witness :
    (0 : ℤ) < 10 ∧ (0 : ℕ) < 10 ∧ (1 : ℚ) < 6/5 ∧
      ((calculate_block_durations 10 10 (6/5)).length = 10 ∧
       (∀ d ∈ calculate_block_durations 10 10 (6/5), 1 ≤ d) ∧
       (calculate_block_durations 10 10 (6/5)).sum =
         max 10 ((calculate_block_durations 10 10 (6/5)).dropLast.sum + 1)) :=
  ⟨by norm_num, by norm_num, by norm_num,
   c4_planner_contract 10 10 (6/5) (by norm_num) (by norm_num) (by norm_num)⟩

/-- C6 (counterexample): for the valid request auctionBlocks = 11 the planned
segment durations are [1,1,1,1,1,1,1,1,2,1] — the residual-corrected final
segment is strictly shorter than its predecessor. -/
theorem c6_counterexample :
    ¬ List.Chain' (· ≤ ·)
      (calculate_block_durations (11 - 1) NUM_SEGMENTS GROWTH_EXPONENT) := by
  intro h
  have he : calculate_block_durations (11 - 1 : ℤ) NUM_SEGMENTS GROWTH_EXPONENT =
      [1, 1, 1, 1, 1, 1, 1, 1, 2, 1] := by
    with_unfolding_all rfl
  rw [he] at h
  norm_num [List.chain'_cons] at h

/-- C6 (amended): the planned segment durations are non-decreasing for every
request with auctionBlocks ≥ 42; for smaller auctions the 1-block floor and
the final residual correction can make the last segment shorter than its
predecessor. -/
theorem c6_monotone_durations {a : ℤ} (ha : 42 ≤ a) :
    List.Chain' (· ≤ ·)
      (calculate_block_durations (a - 1) NUM_SEGMENTS GROWTH_EXPONENT) := by
  simp only [NUM_SEGMENTS, GROWTH_EXPONENT]
  exact durations_chain_41 (by omega)

/-- Witness for C6 (amended) at auctionBlocks = 42. -/
theorem c6_witness :
    List.Chain' (· ≤ ·)
      (calculate_block_durations (42 - 1) NUM_SEGMENTS GROWTH_EXPONENT) :=
  c6_monotone_durations (by norm_num)

/-- C8: when prebidBlocks > 0 the first phase is exactly
`{mps: 0, blockDelta: prebidBlocks}`; when prebidBlocks = 0 no zero-rate
prefix phase is emitted — the schedule starts with the first segment phase,
whose rate is strictly positive. -/
theorem c8_prebid_shape {a p : ℤ} (ha : 2 ≤ a) (hp : 0 ≤ p) :
    (0 < p → ∃ s, generate_schedule a p = some (⟨0, p⟩ :: s)) ∧
    (p = 0 → ∃ hd t, generate_schedule a p = some (hd :: t) ∧ 0 < hd.mps) := by
  constructor
  · intro hp0
    refine ⟨mainPhases (a - 1), ?_⟩
    rw [generate_schedule_eq ha p, if_pos hp0]
    simp
  · intro hp0
    subst hp0
    have hT : (0 : ℝ) < ((a - 1 : ℤ) : ℝ) := by
      exact_mod_cast (by omega : (0 : ℤ) < a - 1)
    have hds1 : ∀ d ∈ calculate_block_durations (a - 1) NUM_SEGMENTS
        GROWTH_EXPONENT, 1 ≤ d :=
      calculate_block_durations_one_le (by norm_num [NUM_SEGMENTS])
    obtain ⟨d, ds', hds⟩ : ∃ d ds',
        calculate_block_durations (a - 1) NUM_SEGMENTS GROWTH_EXPONENT =
          d :: ds' := by
      have hlen := calculate_block_durations_length (a - 1) NUM_SEGMENTS
        GROWTH_EXPONENT (by norm_num [NUM_SEGMENTS])
      cases h : calculate_block_durations (a - 1) NUM_SEGMENTS GROWTH_EXPONENT with
      | nil => rw [h] at hlen; simp [NUM_SEGMENTS] at hlen
      | cons x xs => exact ⟨x, xs, rfl⟩
    have hmem : ∀ ph ∈ segmentPhases ((a - 1 : ℤ) : ℝ) (d :: ds') 0,
        1 ≤ ph.mps :=
      segmentPhases_mps_one_le hT (d :: ds') 0 (hds ▸ hds1) le_rfl
    cases hseg : segmentPhases ((a - 1 : ℤ) : ℝ) (d :: ds') 0 with
    | nil => simp [segmentPhases] at hseg
    | cons ph rest =>
        refine ⟨ph, rest ++ [⟨TOTAL_TARGET - scheduleTotal (ph :: rest), 1⟩],
          ?_, ?_⟩
        · rw [generate_schedule_eq ha 0, if_neg (lt_irrefl 0), mainPhases_eq,
            hds, hseg]
          simp
        · have := hmem ph (by rw [hseg]; exact List.mem_cons_self ph rest)
          omega

/-- Witness for C8 at the concrete requests (2, 3) and (2, 0). -/
theorem c8_witness :
    (∃ s, generate_schedule 2 3 = some (⟨0, 3⟩ :: s)) ∧
    (∃ hd t, generate_schedule 2 0 = some (hd :: t) ∧ 0 < hd.mps) :=
  ⟨(c8_prebid_shape (by norm_num) (by norm_num)).1 (by norm_num),
   (c8_prebid_shape (by norm_num) le_rfl).2 rfl⟩

/-- C9: `generate_schedule` is deterministic — two calls with identical
(auctionBlocks, prebidBlocks) inputs return identical schedules; it is a
pure function of its arguments, with no hidden state. -/
theorem c9_deterministic {a p a' p' : ℤ} (ha : a = a') (hp : p = p') :
    generate_schedule a p = generate_schedule a' p' := by
  rw [ha, hp]

/-- Witness for C9 at the concrete request (86400, 0). -/
theorem c9_witness :
    generate_schedule 86400 0 = generate_schedule 86400 0 :=
  c9_deterministic rfl rfl

/-- C10: for auctionBlocks ≥ 2 and prebidBlocks > 0 the returned schedule is
exactly the zero-rate prebid phase prepended to the prebid-free schedule:
the prebid parameter changes nothing else. -/
theorem c10_prebid_compositional {a p : ℤ} (ha : 2 ≤ a) (hp : 0 < p) :
    ∃ s, generate_schedule a 0 = some s ∧
      generate_schedule a p = some (⟨0, p⟩ :: s) := by
  refine ⟨mainPhases (a - 1), ?_, ?_⟩
  · rw [generate_schedule_eq ha 0, if_neg (lt_irrefl 0)]
    simp
  · rw [generate_schedule_eq ha p, if_pos hp]
    simp

/-- Witness for C10 at the concrete request (2, 1). -/
theorem c10_witness :
    ∃ s, generate_schedule 2 0 = some s ∧
      generate_schedule 2 1 = some (⟨0, 1⟩ :: s) :=
  c10_prebid_compositional (by norm_num) (by norm_num)

/-- C5 (counterexample): at the valid request (2, 0) the final remainder
phase's mps is negative — the clamped one-block durations over-cover the
curve, the segments allocate more than TOTAL_TARGET, and the remainder
`TOTAL_TARGET - cumulative` goes negative. -/
theorem c5_counterexample :
    ∃ s, generate_schedule 2 0 = some s ∧
      ¬ ∀ ph ∈ s, 1 ≤ ph.blockDelta ∧ 0 ≤ ph.mps := by
  have hs : generate_schedule 2 0 = some (mainPhases 1) := by
    rw [generate_schedule_eq (by norm_num) 0, if_neg (lt_irrefl 0),
      List.nil_append, show (2 - 1 : ℤ) = 1 from by norm_num]
  refine ⟨mainPhases 1, hs, ?_⟩
  intro hall
  have hmem : (⟨TOTAL_TARGET - scheduleTotal (segmentPhases (((1 : ℤ)) : ℝ)
      (calculate_block_durations 1 NUM_SEGMENTS GROWTH_EXPONENT) 0),
      1⟩ : Phase) ∈ mainPhases 1 := by
    rw [mainPhases_eq]
    exact List.mem_append_right _ (List.mem_singleton_self _)
  have hneg : (0 : ℤ) ≤ TOTAL_TARGET -
      scheduleTotal (segmentPhases (((1 : ℤ)) : ℝ)
        (calculate_block_durations 1 NUM_SEGMENTS GROWTH_EXPONENT) 0) :=
    (hall _ hmem).2
  have hds1 : ∀ d ∈ calculate_block_durations (1 : ℤ) NUM_SEGMENTS
      GROWTH_EXPONENT, 1 ≤ d :=
    calculate_block_durations_one_le (by norm_num [NUM_SEGMENTS])
  have hT0 : (0:ℝ) < (((1 : ℤ)) : ℝ) := by norm_num
  have hlb := (segmentPhases_total_bounds hT0
    (calculate_block_durations 1 NUM_SEGMENTS GROWTH_EXPONENT) 0
    hds1 le_rfl).1
  have hsum : (calculate_block_durations (1 : ℤ) NUM_SEGMENTS
      GROWTH_EXPONENT).sum = 10 := by
    rw [show calculate_block_durations (1 : ℤ) NUM_SEGMENTS GROWTH_EXPONENT =
      [1, 1, 1, 1, 1, 1, 1, 1, 1, 1] from by with_unfolding_all rfl]
    norm_num
  rw [hsum] at hlb
  simp only [zero_add, Int.cast_zero] at hlb
  rw [cumTokens_zero] at hlb
  have hc10 : cumTokens (((1 : ℤ)) : ℝ) (((10 : ℤ)) : ℝ) =
      7000000 * ((10:ℝ)) ^ ((6:ℝ)/5) := by
    rw [cumTokens_eq]
    norm_num
  rw [hc10] at hlb
  have h10 : (10:ℝ) ≤ (10:ℝ) ^ ((6:ℝ)/5) := by
    calc (10:ℝ) = (10:ℝ) ^ ((1:ℝ)) := (Real.rpow_one 10).symm
    _ ≤ (10:ℝ) ^ ((6:ℝ)/5) :=
        Real.rpow_le_rpow_of_exponent_le (by norm_num) (by norm_num)
  have hfin : (0:ℝ) ≤ ((TOTAL_TARGET : ℤ) : ℝ) -
      (scheduleTotal (segmentPhases (((1 : ℤ)) : ℝ)
        (calculate_block_durations 1 NUM_SEGMENTS GROWTH_EXPONENT) 0) : ℝ) := by
    exact_mod_cast hneg
  rw [total_target_real] at hfin
  push_cast at hlb hfin
  linarith

/-- C5 (amended): for every request with 13 ≤ auctionBlocks ≤ 3,000,001 and
prebidBlocks ≥ 0 the Phase invariants hold for every phase of the returned
schedule: blockDelta ≥ 1 and mps ≥ 0 (final remainder phase included); for
very small or vastly larger auctions the rounding floors overshoot
TOTAL_TARGET and the final mps goes negative. -/
theorem c5_phase_invariants {a p : ℤ} (ha : 13 ≤ a) (hb : a ≤ 3000001)
    (hp : 0 ≤ p) :
    ∃ s, generate_schedule a p = some s ∧
      ∀ ph ∈ s, 1 ≤ ph.blockDelta ∧ 0 ≤ ph.mps := by
  have hT0 : (0:ℝ) < (((a - 1 : ℤ)) : ℝ) := by
    exact_mod_cast (by omega : (0:ℤ) < a - 1)
  have hds1 : ∀ d ∈ calculate_block_durations (a - 1) NUM_SEGMENTS
      GROWTH_EXPONENT, 1 ≤ d :=
    calculate_block_durations_one_le (by norm_num [NUM_SEGMENTS])
  refine ⟨_, generate_schedule_eq (by omega) p, ?_⟩
  intro ph hph
  rcases List.mem_append.1 hph with hpre | hmain
  · split_ifs at hpre with hp0
    · simp only [List.mem_singleton] at hpre
      subst hpre
      constructor
      · show (1:ℤ) ≤ p
        omega
      · show (0:ℤ) ≤ 0
        exact le_rfl
    · simp at hpre
  · rw [mainPhases_eq] at hmain
    rcases List.mem_append.1 hmain with hseg | hfin
    · constructor
      · have hmem : ph.blockDelta ∈ (segmentPhases (((a - 1 : ℤ)) : ℝ)
            (calculate_block_durations (a - 1) NUM_SEGMENTS GROWTH_EXPONENT)
            0).map Phase.blockDelta :=
          List.mem_map_of_mem _ hseg
        rw [segmentPhases_map_blockDelta] at hmem
        exact hds1 _ hmem
      · have h1 := segmentPhases_mps_one_le hT0
          (calculate_block_durations (a - 1) NUM_SEGMENTS GROWTH_EXPONENT) 0
          hds1 le_rfl ph hseg
        omega
    · simp only [List.mem_singleton] at hfin
      subst hfin
      refine ⟨le_rfl, ?_⟩
      have hub := scheduleTotal_segs_ub_loose (T := a - 1) (by omega)
      have haR : ((a - 1 : ℤ) : ℝ) ≤ 3000000 := by
        exact_mod_cast (by omega : (a - 1 : ℤ) ≤ 3000000)
      have hfinR : (0:ℝ) ≤ ((TOTAL_TARGET : ℤ) : ℝ) -
          (scheduleTotal (segmentPhases (((a - 1 : ℤ)) : ℝ)
            (calculate_block_durations (a - 1) NUM_SEGMENTS GROWTH_EXPONENT)
            0) : ℝ) := by
        rw [total_target_real]
        linarith
      simpa using (by exact_mod_cast hfinR :
        (0:ℤ) ≤ TOTAL_TARGET - scheduleTotal (segmentPhases (((a - 1 : ℤ)) : ℝ)
          (calculate_block_durations (a - 1) NUM_SEGMENTS GROWTH_EXPONENT) 0))

/-- Witness for C5 (amended) at the concrete request (13, 0). -/
theorem c5_witness :
    ∃ s, generate_schedule 13 0 = some s ∧
      ∀ ph ∈ s, 1 ≤ ph.blockDelta ∧ 0 ≤ ph.mps :=
  c5_phase_invariants (by norm_num) (by norm_num) le_rfl

/-- C7: for every auctionBlocks in [14400, 604800] with prebidBlocks = 0 the
final phase's mps, expressed as a percentage of TOTAL_TARGET, lies within
[25%, 35%]. -/
theorem c7_final_block_dominance {a : ℤ} (h1 : 14400 ≤ a) (h2 : a ≤ 604800) :
    ∃ s ph, generate_schedule a 0 = some s ∧ s.getLast? = some ph ∧
      (25 : ℚ) ≤ (ph.mps : ℚ) * 100 / ((TOTAL_TARGET : ℤ) : ℚ) ∧
      (ph.mps : ℚ) * 100 / ((TOTAL_TARGET : ℤ) : ℚ) ≤ 35 := by
  have hs : generate_schedule a 0 = some (mainPhases (a - 1)) := by
    rw [generate_schedule_eq (by omega) 0, if_neg (lt_irrefl 0),
      List.nil_append]
  refine ⟨mainPhases (a - 1),
    ⟨TOTAL_TARGET - scheduleTotal (segmentPhases (((a - 1 : ℤ)) : ℝ)
      (calculate_block_durations (a - 1) NUM_SEGMENTS GROWTH_EXPONENT) 0), 1⟩,
    hs, ?_, ?_, ?_⟩
  · rw [mainPhases_eq]
    exact List.getLast?_concat _
  all_goals
    have hlb := scheduleTotal_segs_lb (T := a - 1) (by omega)
    have hub := scheduleTotal_segs_ub_refined (T := a - 1) (by omega) (by omega)
    have haR1 : (14399 : ℝ) ≤ ((a - 1 : ℤ) : ℝ) := by
      exact_mod_cast (by omega : (14399 : ℤ) ≤ a - 1)
    have haR2 : ((a - 1 : ℤ) : ℝ) ≤ 604799 := by
      exact_mod_cast (by omega : (a - 1 : ℤ) ≤ 604799)
    have hmlb : (2500000 : ℤ) ≤ TOTAL_TARGET -
        scheduleTotal (segmentPhases (((a - 1 : ℤ)) : ℝ)
          (calculate_block_durations (a - 1) NUM_SEGMENTS GROWTH_EXPONENT) 0) := by
      have : (2500000 : ℝ) ≤ ((TOTAL_TARGET : ℤ) : ℝ) -
          (scheduleTotal (segmentPhases (((a - 1 : ℤ)) : ℝ)
            (calculate_block_durations (a - 1) NUM_SEGMENTS GROWTH_EXPONENT)
            0) : ℝ) := by
        rw [total_target_real]
        linarith
      exact_mod_cast this
    have hmub : TOTAL_TARGET -
        scheduleTotal (segmentPhases (((a - 1 : ℤ)) : ℝ)
          (calculate_block_durations (a - 1) NUM_SEGMENTS GROWTH_EXPONENT) 0) ≤
        (3500000 : ℤ) := by
      have : ((TOTAL_TARGET : ℤ) : ℝ) -
          (scheduleTotal (segmentPhases (((a - 1 : ℤ)) : ℝ)
            (calculate_block_durations (a - 1) NUM_SEGMENTS GROWTH_EXPONENT)
            0) : ℝ) ≤ (3500000 : ℝ) := by
        rw [total_target_real]
        linarith
      exact_mod_cast this
    rw [show ((TOTAL_TARGET : ℤ) : ℚ) = 10000000 from by norm_num [TOTAL_TARGET]]
  · rw [le_div_iff₀ (by norm_num : (0:ℚ) < 10000000)]
    have : (2500000 : ℚ) ≤ ((TOTAL_TARGET -
        scheduleTotal (segmentPhases (((a - 1 : ℤ)) : ℝ)
          (calculate_block_durations (a - 1) NUM_SEGMENTS GROWTH_EXPONENT) 0) :
        ℤ) : ℚ) := by
      exact_mod_cast hmlb
    linarith
  · rw [div_le_iff₀ (by norm_num : (0:ℚ) < 10000000)]
    have : ((TOTAL_TARGET -
        scheduleTotal (segmentPhases (((a - 1 : ℤ)) : ℝ)
          (calculate_block_durations (a - 1) NUM_SEGMENTS GROWTH_EXPONENT) 0) :
        ℤ) : ℚ) ≤ 3500000 := by
      exact_mod_cast hmub
    linarith

/-- Witness for C7 at the concrete request (14400, 0). -/
theorem c7_witness :
    ∃ s ph, generate_schedule 14400 0 = some s ∧ s.getLast? = some ph ∧
      (25 : ℚ) ≤ (ph.mps : ℚ) * 100 / ((TOTAL_TARGET : ℤ) : ℚ) ∧
      (ph.mps : ℚ) * 100 / ((TOTAL_TARGET : ℤ) : ℚ) ≤ 35 :=
  c7_final_block_dominance (by norm_num) (by norm_num)

end SupplySchedule
